import Mathlib

/-
Shallow embedding of the workspace file-reference resolution and
context-assembly engine of the vs-code-extension repository
(chatPanelProvider / fileManager).

Modelling conventions:
* JS strings are modelled as `List Char` (`Str`); `toLowerCase`/`toUpperCase`
  are the ASCII maps (all inputs of interest are ASCII).
* The filesystem and the VS Code workspace index are modelled by a list of
  `WorkspaceFolder`s, each holding its absolute root path and the
  workspace-relative paths of the files it contains, in enumeration order.
* `vscode.workspace.findFiles` with a pattern of the form `**/tok` (where
  `tok` is a literal token, which is all this code passes for resolution)
  returns the files whose relative path equals `tok` or ends in `/tok`;
  the `**/node_modules/**` exclude drops files with a non-final
  `node_modules` path component.
* Fallible operations (filesystem reads, `openTextDocument`, `statSync`)
  are modelled with `Except`/`Option`-valued environment functions.
* `Array.prototype.sort` (stable per ES2019) is modelled as a stable
  insertion sort over the supplied comparator; the comparators appearing in
  the source are consistent, so this is faithful.
* JS `Number` arithmetic in `formatFileSize` (`Math.log`, `toFixed`) is
  modelled exactly over `Nat`/`ℚ`-style integer arithmetic:
  `Math.floor(Math.log b / Math.log 1024)` becomes `Nat.log 1024 b`.
-/

set_option maxRecDepth 20000
set_option linter.unreachableTactic false
set_option linter.unusedTactic false
set_option linter.unnecessarySimpa false

abbrev Str := List Char

deriving instance DecidableEq for Except

/-- ASCII lower-casing of a modelled JS string (`String.prototype.toLowerCase`). -/
def lowerS (s : Str) : Str := s.map Char.toLower

/-- ASCII upper-casing of a modelled JS string (`String.prototype.toUpperCase`). -/
def upperS (s : Str) : Str := s.map Char.toUpper

/-- JS `hay.startsWith(pre)`. -/
def startsWithS (hay pre : Str) : Bool := pre.isPrefixOf hay

/-- JS `hay.endsWith(suf)`. -/
def endsWithS (hay suf : Str) : Bool := suf.isSuffixOf hay

/-- JS `hay.includes(needle)`: substring containment. -/
def containsS (hay needle : Str) : Bool :=
  match hay with
  | [] => needle.isEmpty
  | _ :: t => needle.isPrefixOf hay || containsS t needle

/-- Split a path on `/` separators (used for glob-exclusion of path components). -/
def splitSlash : Str → List Str
  | [] => [[]]
  | c :: rest =>
    if c == '/' then [] :: splitSlash rest
    else
      match splitSlash rest with
      | [] => [[c]]
      | g :: gs => (c :: g) :: gs

/-- Node `path.basename` (posix): the final path component, ignoring trailing slashes. -/
def basenameS (p : Str) : Str :=
  ((p.reverse.dropWhile (fun c => c == '/')).takeWhile (fun c => !(c == '/'))).reverse

/-- Node `path.extname` (posix): the suffix of the basename from its last dot,
    empty when the only dot is the leading character or there is no dot
    (with the `".."` special case returning empty). -/
def extnameS (p : Str) : Str :=
  let b := basenameS p
  if b == "..".toList then []
  else
    let afterDot := b.reverse.takeWhile (fun c => !(c == '.'))
    if afterDot.length < b.length then
      let i := b.length - afterDot.length - 1
      if i == 0 then [] else b.drop i
    else []

/-- Node `path.isAbsolute` (posix): the path starts with a slash. -/
def isAbsoluteS (p : Str) : Bool :=
  match p with
  | [] => false
  | c :: _ => c == '/'

/-- Node `path.join(a, b)` for the shapes this code produces: glue with a
    single slash (the sources never pass `.`/`..` segments here). -/
def joinS (a b : Str) : Str :=
  if a.getLast? == some '/' then a ++ b else a ++ ('/' :: b)

/-- One open workspace folder: its absolute root path and the
    workspace-relative paths of the files below it, in index order. -/
structure WorkspaceFolder where
  root : Str
  files : List Str
deriving Repr, DecidableEq

/-- The `**/node_modules/**` exclude glob: some non-final path component is
    `node_modules`. -/
def isExcluded (rel : Str) : Bool :=
  ((splitSlash rel).dropLast).any (fun c => c == "node_modules".toList)

/-- A relative path matches the glob `**/tok` for a literal token `tok`. -/
def globMatchTok (rel tok : Str) : Bool :=
  rel == tok || ('/' :: tok).isSuffixOf rel

/-- `vscode.workspace.findFiles` over pattern `**/tok`, optionally with the
    `**/node_modules/**` exclude and a result limit, returning absolute
    `fsPath`s in workspace enumeration order. -/
def findFiles (ws : List WorkspaceFolder) (tok : Str) (excl : Bool) (limit : Option Nat) :
    List Str :=
  let hits :=
    (ws.map (fun f =>
      (f.files.filter (fun rel => (!excl || !isExcluded rel) && globMatchTok rel tok)).map
        (fun rel => joinS f.root rel))).flatten
  match limit with
  | some n => hits.take n
  | none => hits

/-- `vscode.workspace.asRelativePath`: strip the containing folder root; with
    more than one folder open the folder name is prepended; paths outside
    every root are returned unchanged. -/
def asRelativePath (ws : List WorkspaceFolder) (p : Str) : Str :=
  match ws.find? (fun f => (f.root ++ ['/']).isPrefixOf p) with
  | none => p
  | some f =>
    let rel := p.drop (f.root.length + 1)
    if 1 < ws.length then (basenameS f.root) ++ ('/' :: rel) else rel

/-- `fs.promises.access` / existence on the modelled filesystem: the absolute
    path is one of the workspace files. -/
def existsFS (ws : List WorkspaceFolder) (absPath : Str) : Bool :=
  ws.any (fun f => f.files.any (fun rel => joinS f.root rel == absPath))

/-- First-occurrence deduplication with an explicit seen accumulator
    (the semantics of iterating a JS `Set`). -/
def dedupAux [DecidableEq α] : List α → List α → List α
  | _, [] => []
  | seen, x :: xs =>
    if x ∈ seen then dedupAux seen xs else x :: dedupAux (x :: seen) xs

/-- JS `[...new Set(l)]`: keep the first occurrence of each element,
    preserving insertion order. -/
def dedupFirst [DecidableEq α] (l : List α) : List α := dedupAux [] l

/-- Insert `x` after every already-placed element `y` with `le y x`
    (stable insertion for a total-preorder test `le`). -/
def sInsert (le : α → α → Bool) (x : α) : List α → List α
  | [] => [x]
  | y :: ys => if le y x then y :: sInsert le x ys else x :: y :: ys

/-- Stable sort by the boolean total-preorder test `le`
    (the model of ES2019 `Array.prototype.sort` with a consistent comparator). -/
def stableSortBy (le : α → α → Bool) (l : List α) : List α :=
  l.foldl (fun acc x => sInsert le x acc) []

/-
MentionExtractor: `_extractFileReferences` (chatPanelProvider).
The source repeatedly executes the global regex
`@([a-zA-Z0-9./_-]+(?:\.(js|jsx|ts|tsx|css|scss|json|html))?)/g` on the text.
The optional extension group lies inside the character class of the greedy
`+`, so each match captures exactly the maximal run of class characters
after an `@`, and scanning resumes right after that run.  The capture then
has trailing `.,;!?` punctuation stripped and is inserted into a `Set`.
`scanAux` is that scan as a state machine: the first argument is the
(reversed) run currently being captured, if a capture is in progress.
-/

/-- A character of the mention character class `[a-zA-Z0-9./_-]`. -/
def allowedChar (c : Char) : Bool :=
  c.isAlpha || c.isDigit || c == '.' || c == '/' || c == '_' || c == '-'

/-- One pass of the global-regex scan; see the comment above. -/
def scanAux : Option Str → Str → List Str
  | none, [] => []
  | some acc, [] => if acc.isEmpty then [] else [acc.reverse]
  | none, c :: rest =>
    if c == '@' then scanAux (some []) rest else scanAux none rest
  | some acc, c :: rest =>
    if allowedChar c then scanAux (some (c :: acc)) rest
    else if acc.isEmpty then
      (if c == '@' then scanAux (some []) rest else scanAux none rest)
    else
      acc.reverse :: (if c == '@' then scanAux (some []) rest else scanAux none rest)

/-- All raw regex captures of the mention regex, in match order. -/
def scanMentions (text : Str) : List Str := scanAux none text

/-- The trailing-punctuation class `[.,;!?]` of the clean-up replace. -/
def punctChar (c : Char) : Bool :=
  c == '.' || c == ',' || c == ';' || c == '!' || c == '?'

/-- JS `match[1].replace(/[.,;!?]*$/, '')`: strip trailing punctuation. -/
def stripTrailingPunct (t : Str) : Str := (t.reverse.dropWhile punctChar).reverse

/-- `_extractFileReferences`: scan for mention tokens, strip trailing
    punctuation, and collapse duplicates to first occurrence via a `Set`. -/
def extractFileReferences (text : Str) : List Str :=
  dedupFirst ((scanMentions text).map stripTrailingPunct)

/-- The fixed extension-to-language table of `_getFileLanguage`
    (chatPanelProvider). -/
def chatLangMap : List (Str × Str) :=
  [ (".js".toList, "JavaScript".toList),
    (".jsx".toList, "JSX".toList),
    (".ts".toList, "TypeScript".toList),
    (".tsx".toList, "TSX".toList),
    (".css".toList, "CSS".toList),
    (".scss".toList, "SCSS".toList),
    (".html".toList, "HTML".toList),
    (".json".toList, "JSON".toList) ]

/-- `_getFileLanguage` (chatPanelProvider): look the lower-cased extension up
    in the table, else `ext.substring(1).toUpperCase()` (the table has no
    falsy values, so `||` is an option fallback). -/
def getFileLanguage (filePath : Str) : Str :=
  let ext := lowerS (extnameS filePath)
  match chatLangMap.lookup ext with
  | some lang => lang
  | none => upperS (ext.drop 1)

/-- One entry of the `fileList` built by `_getWorkspaceFiles`. -/
structure FileEntry where
  path : Str
  fullPath : Str
  name : Str
  directory : Str
deriving DecidableEq, Repr

/-- The comparator passed to `fileList.sort` in `_getWorkspaceFiles`;
    `q` is the already-normalized (slash-fixed, lower-cased) query. -/
def wsCompare (q : Str) (a b : FileEntry) : Int :=
  let aExact := lowerS a.path == q
  let bExact := lowerS b.path == q
  if aExact && !bExact then -1
  else if !aExact && bExact then 1
  else
    let aDirMatch := containsS (lowerS a.path) q
    let bDirMatch := containsS (lowerS b.path) q
    if aDirMatch && !bDirMatch then -1
    else if !aDirMatch && bDirMatch then 1
    else (a.path.length : Int) - (b.path.length : Int)

/-- The ordering `_getWorkspaceFiles` actually produces: the stable sort by
    its comparator. -/
def wsSortCode (q : Str) (l : List FileEntry) : List FileEntry :=
  stableSortBy (fun a b => decide (wsCompare q a b ≤ 0)) l

/-- The common-extension bonus list of `_calculateRelevance`. -/
def commonExtensions : List Str :=
  [ ".js".toList, ".jsx".toList, ".ts".toList, ".tsx".toList, ".vue".toList,
    ".py".toList, ".java".toList, ".c".toList, ".cpp".toList ]

/-- `_calculateRelevance` (chatPanelProvider): the additive relevance score.
    Each conditional bonus of the source contributes one summand. -/
def calculateRelevance (file : FileEntry) (q : Str) : Nat :=
  let lowerQuery := lowerS q
  let lowerPath := lowerS file.path
  let lowerName := lowerS file.name
  let lowerDir := lowerS file.directory
  let qBase := basenameS lowerQuery
  let s1 := if lowerPath == lowerQuery then 1000 else 0
  let s2 := if containsS lowerPath lowerQuery then 500 else 0
  let s3 := if containsS lowerDir lowerQuery then 300 else 0
  let s4 := if lowerName == qBase then 200 else 0
  let s5 := if startsWithS lowerName qBase then 100 else 0
  let s6 := if containsS lowerName qBase then 50 else 0
  let s7 := if commonExtensions.contains (lowerS (extnameS file.name)) then 20 else 0
  s1 + s2 + s3 + s4 + s5 + s6 + s7

/-- Lexicographic order on modelled strings (code-point order). -/
def lexLe : Str → Str → Bool
  | [], _ => true
  | _ :: _, [] => false
  | a :: as, b :: bs => if a == b then lexLe as bs else decide (a < b)

/-- The ordering test asserted by the claim: higher `_calculateRelevance`
    score first, ties by ascending path length, then lexicographic path
    order. -/
def relevanceLe (q : Str) (a b : FileEntry) : Bool :=
  if calculateRelevance a q == calculateRelevance b q then
    (if a.path.length == b.path.length then lexLe a.path b.path
     else decide (a.path.length < b.path.length))
  else decide (calculateRelevance b q < calculateRelevance a q)

/-- The ordering the claim asserts `_getWorkspaceFiles` produces. -/
def wsSortClaim (q : Str) (l : List FileEntry) : List FileEntry :=
  stableSortBy (relevanceLe q) l

/-- The ordering test of the amended claim, written from its words: exact
    lower-cased path match first, then paths containing the query, then
    ascending path length; otherwise no preference (ties keep prior order). -/
def amendedLe (q : Str) (a b : FileEntry) : Bool :=
  let aExact := lowerS a.path == q
  let bExact := lowerS b.path == q
  let aCont := containsS (lowerS a.path) q
  let bCont := containsS (lowerS b.path) q
  if aExact != bExact then aExact
  else if aCont != bCont then aCont
  else decide (a.path.length ≤ b.path.length)

/-- The ordering described by the amended claim. -/
def wsSortAmended (q : Str) (l : List FileEntry) : List FileEntry :=
  stableSortBy (amendedLe q) l

/-- The recognized image-extension set of `_isImageFile` (chatPanelProvider). -/
def chatImageExts : List Str :=
  [ ".png".toList, ".jpg".toList, ".jpeg".toList, ".gif".toList,
    ".bmp".toList, ".svg".toList ]

/-- `_isImageFile` (chatPanelProvider). -/
def chatIsImageFile (filePath : Str) : Bool :=
  chatImageExts.contains (lowerS (extnameS filePath))

/-- Environment of the chat panel: the open workspace and the
    `openTextDocument` text loader (an error models a rejected promise,
    carrying the rejection message). -/
structure ChatEnv where
  ws : List WorkspaceFolder
  readTextFile : Str → Except Str Str

/-- `_readFileContent` (chatPanelProvider): fail without a workspace, resolve
    relative paths against the first folder, short-circuit recognized image
    extensions to a bracketed stub, otherwise load the document text. -/
def chatReadFileContent (env : ChatEnv) (filePath : Str) : Except Str Str :=
  match env.ws with
  | [] => .error ("No workspace folder".toList)
  | f :: _ =>
    let fullPath := if isAbsoluteS filePath then filePath else joinS f.root filePath
    if chatIsImageFile filePath then
      .ok (("[Image file: ".toList) ++ basenameS filePath ++ ("]".toList))
    else env.readTextFile fullPath

/-- `_findFilesInWorkspace` (chatPanelProvider): one `findFiles` call over
    `**/query`, node_modules excluded, capped at 5 results. -/
def findFilesInWorkspace (env : ChatEnv) (query : Str) : List Str :=
  findFiles env.ws query true (some 5)

/-- The per-mention resolution of `_handleChatMessage`: first hit of
    `_findFilesInWorkspace`, `none` when there is no hit (the surrounding
    `try` turns a search failure into `undefined` as well). -/
def resolveMention (env : ChatEnv) (ref : Str) : Option Str :=
  (findFilesInWorkspace env ref).head?

/-- The deduplicated file list `allFiles` of `_handleChatMessage`: mention
    tokens (empties dropped), each resolved to its first search hit with
    failures discarded, appended after the explicitly attached files, then
    deduplicated by a `Set` (first occurrence wins). -/
def allFilesOf (env : ChatEnv) (text : Str) (attached : List Str) : List Str :=
  let fileReferences := (extractFileReferences text).filter (fun r => decide (0 < r.length))
  let resolved := fileReferences.filterMap (resolveMention env)
  dedupFirst (attached ++ resolved)

/-- The context handed to the generation collaborator: the enhanced prompt
    and the `referencedFiles` list posted back to the webview. -/
structure ContextBlock where
  prompt : Str
  files : List Str
deriving DecidableEq, Repr

/-- One serialized per-file section of the enhanced prompt. -/
def fileBlock (fc : Str × Str) : Str :=
  ("\n// File: ".toList) ++ fc.1 ++ ("\n// Language: ".toList) ++ getFileLanguage fc.1 ++
    ("\n```\n".toList) ++ fc.2 ++ ("\n```\n".toList)

/-- Read one file of `allFiles` and pair it with its display path. -/
def readOne (env : ChatEnv) (filePath : Str) : Except Str (Str × Str) :=
  (chatReadFileContent env filePath).map (fun c => (asRelativePath env.ws filePath, c))

/-- The `Promise.all` over the per-file reads: the whole batch rejects as
    soon as any single read rejects (modelled with the first failure in list
    order; the claims below only use single-failure scenarios, where the
    rejecting promise is unambiguous). -/
def readAll (env : ChatEnv) : List Str → Except Str (List (Str × Str))
  | [] => .ok []
  | fp :: rest =>
    match readOne env fp, readAll env rest with
    | .error e, _ => .error e
    | .ok _, .error e => .error e
    | .ok pc, .ok l => .ok (pc :: l)

/-- `_handleChatMessage` (chatPanelProvider) up to the external AI call:
    extract and resolve mentions, merge with attachments, read every file,
    and build the enhanced prompt.  Any rejection inside the `try` body is
    caught at the end and posted as an `Error: ...` message, which the
    `Except.error` branch models. -/
def handleChatMessage (env : ChatEnv) (text : Str) (attachedFiles : List Str) :
    Except Str ContextBlock :=
  let allFiles := allFilesOf env text attachedFiles
  match readAll env allFiles with
  | .error e => .error (("Error: ".toList) ++ e)
  | .ok fileContents =>
    let prompt :=
      if fileContents.isEmpty then text
      else fileContents.foldl (fun acc fc => acc ++ fileBlock fc)
        (text ++ ("\n\n=== Referenced Files ===\n".toList))
    .ok ⟨prompt, allFiles⟩

/-
FileManager (fileManager.ts).
-/

/-- The `imageExtensions` field of `FileManager`. -/
def fmImageExts : List Str :=
  [ ".png".toList, ".jpg".toList, ".jpeg".toList, ".gif".toList,
    ".bmp".toList, ".svg".toList, ".webp".toList, ".ico".toList ]

/-- `FileManager.isImageFile`. -/
def fmIsImageFile (filePath : Str) : Bool :=
  fmImageExts.contains (lowerS (extnameS filePath))

/-- `FileManager.resolveFilePath`: probe `join(root, rel)` for each folder in
    order; otherwise search `**/basename(rel)` (no exclude, no limit) and
    return the hit whose `asRelativePath` equals `rel` (strict `===`);
    otherwise fail. -/
def resolveFilePath (ws : List WorkspaceFolder) (relativePath : Str) : Except Str Str :=
  match ws with
  | [] => .error ("No workspace folder".toList)
  | _ :: _ =>
    match ws.find? (fun f => existsFS ws (joinS f.root relativePath)) with
    | some f => .ok (joinS f.root relativePath)
    | none =>
      match (findFiles ws (basenameS relativePath) false none).find?
          (fun p => asRelativePath ws p == relativePath) with
      | some p => .ok p
      | none => .error (("File not found: ".toList) ++ relativePath)

/-- The result of `fs.statSync`: size plus the `toLocaleDateString` rendering
    of the modification time (locale-dependent, supplied by the environment). -/
structure StatInfo where
  size : Nat
  mtimeStr : Str
deriving Repr

/-- Environment of `FileManager`: workspace, `statSync` (`none` models a
    thrown stat error) and the `openTextDocument` loader. -/
structure FMEnv where
  ws : List WorkspaceFolder
  statFile : Str → Option StatInfo
  readTextFile : Str → Except Str Str

/-- The unit table of `formatFileSize`. -/
def sizesUnits : List Str :=
  [ "Bytes".toList, "KB".toList, "MB".toList, "GB".toList ]

/-- Decimal rendering of a natural number. -/
def natStr (n : Nat) : Str := (Nat.repr n).toList

/-- JS `parseFloat((bytes / Math.pow(1024, i)).toFixed(2))` rendered back to
    a string, modelled exactly: round `bytes / 1024^i` to the nearest
    hundredth (ties up) and strip trailing zeros as `parseFloat` does. -/
def fmtNum (bytes i : Nat) : Str :=
  let p := 1024 ^ i
  let centi := (bytes * 100 + p / 2) / p
  let ip := centi / 100
  let fr := centi % 100
  if fr == 0 then natStr ip
  else if fr % 10 == 0 then natStr ip ++ ('.' :: natStr (fr / 10))
  else if fr < 10 then natStr ip ++ ('.' :: '0' :: natStr fr)
  else natStr ip ++ ('.' :: natStr fr)

/-- `FileManager.formatFileSize`:
    `i = Math.floor(Math.log(bytes) / Math.log(1024))` (here `Nat.log`) and
    `sizes[i]` — JS concatenation of the out-of-range access yields the text
    `undefined`, which `List.getD` with that default captures. -/
def formatFileSize (bytes : Nat) : Str :=
  if bytes == 0 then "0 Bytes".toList
  else
    let i := Nat.log 1024 bytes
    fmtNum bytes i ++ (' ' :: sizesUnits.getD i ("undefined".toList))

/-- The closing paragraph of the full image-metadata summary. -/
def imageNoteFull : Str :=
  ("\n\nThis is an image file. I can see the file metadata but cannot directly analyze the image content. If you need image analysis, please describe what you\x27d like me to help you with regarding this image.").toList

/-- The closing paragraph of the reduced (stat-failure) summary. -/
def imageNoteReduced : Str :=
  ("\n\nThis is an image file. I can reference it in our conversation but cannot directly analyze the image content.").toList

/-- `FileManager.getImageMetadata`: the fixed-format metadata summary, with
    the reduced fallback when `statSync` throws. -/
def getImageMetadata (stat : Str → Option StatInfo) (filePath : Str) : Str :=
  let name := basenameS filePath
  let extension := extnameS filePath
  match stat filePath with
  | some st =>
    ("[Image: ".toList) ++ name ++ ("]\nType: ".toList) ++ upperS (extension.drop 1) ++
      ("\nSize: ".toList) ++ formatFileSize st.size ++ ("\nPath: ".toList) ++ filePath ++
      ("\nModified: ".toList) ++ st.mtimeStr ++ imageNoteFull
  | none =>
    ("[Image: ".toList) ++ name ++ ("]\nType: ".toList) ++ upperS (extension.drop 1) ++
      ("\nPath: ".toList) ++ filePath ++ imageNoteReduced

/-- `FileManager.readFileContent`: fail without a workspace; resolve
    non-absolute paths via `resolveFilePath`; branch images to
    `getImageMetadata`; otherwise load the text; wrap any failure in a
    `Could not read file ...` message. -/
def fmReadFileContent (env : FMEnv) (filePath : Str) : Except Str Str :=
  match env.ws with
  | [] => .error ("No workspace folder open".toList)
  | _ :: _ =>
    let attempt : Except Str Str :=
      match (if isAbsoluteS filePath then Except.ok filePath
             else resolveFilePath env.ws filePath) with
      | .error e => .error e
      | .ok fullPath =>
        if fmIsImageFile fullPath then .ok (getImageMetadata env.statFile fullPath)
        else env.readTextFile fullPath
    match attempt with
    | .ok s => .ok s
    | .error e =>
      .error (("Could not read file \x27".toList) ++ filePath ++ ("\x27: ".toList) ++ e)

/-- The fixed extension-to-language table of `FileManager.getLanguageFromFile`. -/
def fmLangMap : List (Str × Str) :=
  [ (".js".toList, "javascript".toList),
    (".ts".toList, "typescript".toList),
    (".jsx".toList, "javascript".toList),
    (".tsx".toList, "typescript".toList),
    (".py".toList, "python".toList),
    (".java".toList, "java".toList),
    (".c".toList, "c".toList),
    (".cpp".toList, "cpp".toList),
    (".cs".toList, "csharp".toList),
    (".php".toList, "php".toList),
    (".rb".toList, "ruby".toList),
    (".go".toList, "go".toList),
    (".rs".toList, "rust".toList),
    (".swift".toList, "swift".toList),
    (".kt".toList, "kotlin".toList),
    (".scala".toList, "scala".toList),
    (".html".toList, "html".toList),
    (".css".toList, "css".toList),
    (".scss".toList, "scss".toList),
    (".json".toList, "json".toList),
    (".xml".toList, "xml".toList),
    (".yaml".toList, "yaml".toList),
    (".yml".toList, "yaml".toList),
    (".md".toList, "markdown".toList),
    (".sh".toList, "bash".toList),
    (".sql".toList, "sql".toList) ]

/-- `FileManager.getLanguageFromFile`: table lookup on the lower-cased
    extension with default `"text"`. -/
def getLanguageFromFile (filePath : Str) : Str :=
  match fmLangMap.lookup (lowerS (extnameS filePath)) with
  | some lang => lang
  | none => "text".toList

/-- The PathResolver algorithm of spec section 4.4, assembled from the code
    it describes: an absolute token is returned as-is (the absolute branch of
    `readFileContent`), a relative one goes through `resolveFilePath`. -/
def pathResolverResolve (ws : List WorkspaceFolder) (token : Str) : Except Str Str :=
  if isAbsoluteS token then .ok token else resolveFilePath ws token

/-- Modelled from the words of the amended claim C4: a mention resolves to
    the first workspace file (in enumeration order, node_modules excluded)
    whose relative path equals the token or ends in slash-token. -/
def specMentionResolution (ws : List WorkspaceFolder) (token : Str) : Option Str :=
  ((ws.map (fun f => f.files.filterMap (fun rel =>
      if !isExcluded rel && globMatchTok rel token then some (joinS f.root rel)
      else none))).flatten).head?

/-- The `fullPath` computation of `_readFileContent` (chatPanelProvider):
    the absolute path a given entry of `allFiles` denotes. -/
def chatFullPath (env : ChatEnv) (filePath : Str) : Str :=
  match env.ws with
  | [] => filePath
  | f :: _ => if isAbsoluteS filePath then filePath else joinS f.root filePath

/-
Concrete fixtures used by counterexamples and witnesses.
-/

/-- Candidate with a common source extension (fixture for C1). -/
def entryA : FileEntry :=
  ⟨"ab/app.c".toList, "/w/ab/app.c".toList, "app.c".toList, "ab".toList⟩

/-- Candidate with an uncommon extension, same path length (fixture for C1). -/
def entryB : FileEntry :=
  ⟨"zz/app.x".toList, "/w/zz/app.x".toList, "app.x".toList, "zz".toList⟩

/-- Workspace with one readable and one unreadable file (fixture for C2). -/
def envC2 : ChatEnv :=
  ⟨[⟨"/ws".toList, ["a.ts".toList, "b.ts".toList]⟩],
   fun p => if p == "/ws/a.ts".toList then .ok ("AAA".toList)
            else .error ("boom".toList)⟩

/-- Workspace where an attachment (relative form) and a resolved mention
    (absolute form) denote the same file (fixture for C3). -/
def envC3 : ChatEnv :=
  ⟨[⟨"/ws".toList, ["src/app.ts".toList]⟩],
   fun p => if p == "/ws/src/app.ts".toList then .ok ("CODE".toList)
            else .error ("ENOENT".toList)⟩

/-- Workspace whose only `app.ts` lives in a subdirectory (fixture for C4/C5). -/
def wsNested : List WorkspaceFolder :=
  [⟨"/ws".toList, ["src/app.ts".toList]⟩]

/-- Chat environment over `wsNested` (fixture for C4). -/
def envC4 : ChatEnv := ⟨wsNested, fun _ => .error ("unused".toList)⟩

/-- Two-root workspace whose second root holds `src/app.ts`
    (witness fixture for the amended C5). -/
def wsTwoRoots : List WorkspaceFolder :=
  [⟨"/a".toList, ["x.ts".toList]⟩, ⟨"/b".toList, ["src/app.ts".toList]⟩]

/-- Workspace with a file of unknown extension (fixture for C6). -/
def envC6 : ChatEnv :=
  ⟨[⟨"/ws".toList, ["a.foo".toList]⟩],
   fun p => if p == "/ws/a.foo".toList then .ok ("X".toList)
            else .error ("ENOENT".toList)⟩

/-- FileManager environment whose stat call always fails (witness for C8). -/
def fmEnvC8 : FMEnv :=
  ⟨[⟨"/ws".toList, ["img.png".toList]⟩], fun _ => none,
   fun _ => .error ("nope".toList)⟩

/-- Chat environment holding a `.webp` file with known raw text
    (witness fixture for C10). -/
def envC10 : ChatEnv :=
  ⟨[⟨"/ws".toList, ["pic.webp".toList]⟩],
   fun p => if p == "/ws/pic.webp".toList then .ok ("RAWBYTES".toList)
            else .error ("ENOENT".toList)⟩

/-- FileManager environment over the same `.webp` file (witness for C10). -/
def fmEnvC10 : FMEnv :=
  ⟨[⟨"/ws".toList, ["pic.webp".toList]⟩],
   fun _ => some ⟨5, "1/1/2020".toList⟩, fun _ => .error ("ENOENT".toList)⟩

/-
Helper lemmas.
-/

/-- Membership in the seen-accumulator deduplication. -/
theorem mem_dedupAux [DecidableEq α] (y : α) :
    ∀ (l seen : List α), y ∈ dedupAux seen l ↔ (y ∈ l ∧ y ∉ seen) := by
  intro l
  induction l with
  | nil => intro seen; simp [dedupAux]
  | cons x xs ih =>
    intro seen
    by_cases hx : x ∈ seen
    · simp only [dedupAux, if_pos hx, ih, List.mem_cons]
      constructor
      · rintro ⟨hy, hs⟩; exact ⟨Or.inr hy, hs⟩
      · rintro ⟨hy | hy, hs⟩
        · cases hy; exact absurd hx hs
        · exact ⟨hy, hs⟩
    · simp only [dedupAux, if_neg hx, List.mem_cons, ih]
      constructor
      · rintro (rfl | ⟨h1, h2⟩)
        · exact ⟨Or.inl rfl, hx⟩
        · exact ⟨Or.inr h1, fun hs => h2 (Or.inr hs)⟩
      · rintro ⟨h1 | h1, h2⟩
        · exact Or.inl h1
        · by_cases hyx : y = x
          · exact Or.inl hyx
          · exact Or.inr ⟨h1, fun hor => hor.elim hyx h2⟩

/-- The deduplicated list has no duplicates. -/
theorem nodup_dedupAux [DecidableEq α] :
    ∀ (l seen : List α), (dedupAux seen l).Nodup := by
  intro l
  induction l with
  | nil => intro seen; simp [dedupAux]
  | cons x xs ih =>
    intro seen
    by_cases hx : x ∈ seen
    · simpa [dedupAux, hx] using ih seen
    · simp only [dedupAux, if_neg hx]
      refine List.nodup_cons.mpr ⟨?_, ih (x :: seen)⟩
      intro hmem
      exact ((mem_dedupAux x xs (x :: seen)).mp hmem).2 (List.mem_cons_self x seen)

/-- The deduplicated list is a subsequence of the input. -/
theorem dedupAux_sublist [DecidableEq α] :
    ∀ (l seen : List α), (dedupAux seen l).Sublist l := by
  intro l
  induction l with
  | nil => intro seen; simp [dedupAux]
  | cons x xs ih =>
    intro seen
    by_cases hx : x ∈ seen
    · simp only [dedupAux, if_pos hx]
      exact (ih seen).trans (List.sublist_cons_self x xs)
    · simp only [dedupAux, if_neg hx]
      exact (ih (x :: seen)).cons₂ x

/-- Deduplication only inspects the seen accumulator through membership. -/
theorem dedupAux_congr [DecidableEq α] :
    ∀ (l seen₁ seen₂ : List α), (∀ y, y ∈ seen₁ ↔ y ∈ seen₂) →
      dedupAux seen₁ l = dedupAux seen₂ l := by
  intro l
  induction l with
  | nil => intro s₁ s₂ _; simp [dedupAux]
  | cons x xs ih =>
    intro s₁ s₂ h
    by_cases hx : x ∈ s₁
    · have hx₂ : x ∈ s₂ := (h x).mp hx
      simp only [dedupAux, if_pos hx, if_pos hx₂]
      exact ih s₁ s₂ h
    · have hx₂ : x ∉ s₂ := fun hh => hx ((h x).mpr hh)
      simp only [dedupAux, if_neg hx, if_neg hx₂]
      exact congrArg (x :: ·) (ih _ _ (fun y => by simp [List.mem_cons, h y]))

/-- Splitting a deduplication across an append. -/
theorem dedupAux_append [DecidableEq α] :
    ∀ (l₁ l₂ seen : List α),
      dedupAux seen (l₁ ++ l₂) = dedupAux seen l₁ ++ dedupAux (l₁ ++ seen) l₂ := by
  intro l₁
  induction l₁ with
  | nil => intro l₂ seen; simp [dedupAux]
  | cons x t ih =>
    intro l₂ seen
    by_cases hx : x ∈ seen
    · simp only [List.cons_append, dedupAux, List.append_eq, if_pos hx]
      rw [ih]
      congr 1
      refine dedupAux_congr l₂ _ _ (fun y => ?_)
      constructor
      · exact fun hy => List.mem_cons_of_mem x hy
      · intro hy
        rcases List.mem_cons.mp hy with rfl | hy2
        · exact List.mem_append.mpr (Or.inr hx)
        · exact hy2
    · simp only [List.cons_append, dedupAux, List.append_eq, if_neg hx]
      rw [ih]
      refine congrArg (x :: ·) ?_
      congr 1
      refine dedupAux_congr l₂ _ _ (fun y => ?_)
      simp only [List.mem_append, List.mem_cons]
      tauto

/-- An infix stays an infix under a left append. -/
theorem infix_append_swallow {l m : Str} (a : Str) (h : l <:+: m) : l <:+: a ++ m := by
  obtain ⟨s, t, rfl⟩ := h
  exact ⟨a ++ s, t, by simp⟩

/-- An infix stays an infix under a right append. -/
theorem infix_append_keep {l m : Str} (a : Str) (h : l <:+: m) : l <:+: m ++ a := by
  obtain ⟨s, t, rfl⟩ := h
  exact ⟨s, t ++ a, by simp⟩

/-- A failing element makes the whole read batch fail. -/
theorem readAll_error (env : ChatEnv) :
    ∀ (l : List Str) (fp e : Str), fp ∈ l → chatReadFileContent env fp = .error e →
      ∃ eAll, readAll env l = .error eAll := by
  intro l
  induction l with
  | nil => intro fp e h; cases h
  | cons x xs ih =>
    intro fp e hmem hrd
    rcases List.mem_cons.mp hmem with rfl | hmem2
    · have hone : readOne env fp = .error e := by simp only [readOne, hrd]; rfl
      exact ⟨e, by simp [readAll, hone]⟩
    · rcases ih fp e hmem2 hrd with ⟨eAll, hAll⟩
      cases hx : readOne env x with
      | error e0 => exact ⟨e0, by simp [readAll, hx]⟩
      | ok pc => exact ⟨eAll, by simp [readAll, hx, hAll]⟩

/-- A guarded filterMap is a filter followed by a map. -/
theorem filterMap_guard_eq (p : α → Bool) (g : α → β) :
    ∀ l : List α,
      (l.filterMap fun a => if p a then some (g a) else none) = (l.filter p).map g := by
  intro l
  induction l with
  | nil => rfl
  | cons x xs ih =>
    by_cases h : p x <;> simp [List.filterMap_cons, List.filter_cons, h, ih]

/-
Claim theorems.
-/

/-- The comparator of `_getWorkspaceFiles` agrees pointwise with the
    three-stage boolean test of the amended claim. -/
theorem wsCompare_le_iff_amendedLe (q : Str) (a b : FileEntry) :
    decide (wsCompare q a b ≤ 0) = amendedLe q a b := by
  unfold wsCompare amendedLe
  by_cases hae : (lowerS a.path == q) = true <;>
    by_cases hbe : (lowerS b.path == q) = true <;>
      by_cases had : (containsS (lowerS a.path) q) = true <;>
        by_cases hbd : (containsS (lowerS b.path) q) = true <;>
          simp [hae, hbe, had, hbd, decide_eq_true_eq] <;> omega

/-- Claim C1 fails on the code: for query `app` and the two candidates
    `entryB`, `entryA` (equal path length, both merely containing the query,
    relevance scores 650 and 670), the comparator of `_getWorkspaceFiles`
    keeps the insertion order while sorting by the additive relevance score
    with length/lexicographic tie-breaks swaps them. -/
theorem C1_counterexample :
    wsSortCode ("app".toList) [entryB, entryA]
      ≠ wsSortClaim ("app".toList) [entryB, entryA] := by decide

/-- Claim C1 (amended): the ordering `_getWorkspaceFiles` produces is the
    stable sort by exact lower-cased path match first, then path containing
    the query, then ascending path length, with ties keeping their prior
    order; the additive `_calculateRelevance` score is never consulted. -/
theorem C1_amended (q : Str) (l : List FileEntry) :
    wsSortCode q l = wsSortAmended q l := by
  unfold wsSortCode wsSortAmended
  have h : (fun a b => decide (wsCompare q a b ≤ 0)) = amendedLe q :=
    funext fun a => funext fun b => wsCompare_le_iff_amendedLe q a b
  rw [h]

/-- Claim C2 fails on the code: in `envC2` the file `a.ts` reads
    successfully while `b.ts` fails, both are in the assembled set, yet
    `_handleChatMessage` aborts the whole assembly with an error message
    instead of producing a ContextBlock with the readable file. -/
theorem C2_counterexample :
    chatReadFileContent envC2 ("a.ts".toList) = .ok ("AAA".toList) ∧
    chatReadFileContent envC2 ("b.ts".toList) = .error ("boom".toList) ∧
    ("b.ts".toList) ∈ allFilesOf envC2 ("hi".toList) ["a.ts".toList, "b.ts".toList] ∧
    handleChatMessage envC2 ("hi".toList) ["a.ts".toList, "b.ts".toList]
      = .error ("Error: boom".toList) := by decide

/-- Claim C2 (amended): per-file failures are tolerated only during mention
    resolution; once the file set is fixed, a failure to read any one file
    in it aborts the entire assembly with an `Error: ...` result, discarding
    the successfully read files. -/
theorem C2_amended (env : ChatEnv) (text : Str) (attached : List Str) (fp e : Str)
    (hmem : fp ∈ allFilesOf env text attached)
    (hfail : chatReadFileContent env fp = .error e) :
    ∃ eAll, handleChatMessage env text attached = .error (("Error: ".toList) ++ eAll) := by
  rcases readAll_error env (allFilesOf env text attached) fp e hmem hfail with ⟨eAll, hAll⟩
  exact ⟨eAll, by simp [handleChatMessage, hAll]⟩

/-- Witness for the amended C2 at the concrete environment `envC2`. -/
theorem C2_amended_witness :
    ∃ eAll, handleChatMessage envC2 ("hi".toList) ["a.ts".toList, "b.ts".toList]
      = .error (("Error: ".toList) ++ eAll) :=
  C2_amended envC2 ("hi".toList) ["a.ts".toList, "b.ts".toList]
    ("b.ts".toList) ("boom".toList) (by decide) (by decide)

/-- Claim C3 fails on the code: in `envC3` the attachment `src/app.ts`
    (relative form) and the resolved mention `/ws/src/app.ts` (absolute
    form) denote the same absolute path, yet both survive the `Set`
    deduplication and two file blocks are produced. -/
theorem C3_counterexample :
    (allFilesOf envC3 ("see @app.ts".toList) ["src/app.ts".toList]).length = 2 ∧
    chatFullPath envC3 ("src/app.ts".toList)
      = chatFullPath envC3 ("/ws/src/app.ts".toList) ∧
    (handleChatMessage envC3 ("see @app.ts".toList) ["src/app.ts".toList]).map
      (fun blk => blk.files) = .ok ["src/app.ts".toList, "/ws/src/app.ts".toList] := by decide

/-- Claim C3 (amended): the final file set is deduplicated by exact path
    string equality — it contains no duplicate strings, starts with the
    deduplicated explicit attachments in order, and its mention-derived tail
    contains no attached string; distinct relative/absolute spellings of one
    absolute path are not identified. -/
theorem C3_amended (env : ChatEnv) (text : Str) (attached : List Str) :
    (allFilesOf env text attached).Nodup ∧
    ∃ rest, allFilesOf env text attached = dedupFirst attached ++ rest ∧
      ∀ x ∈ rest, x ∉ attached := by
  refine ⟨?_, ?_⟩
  · unfold allFilesOf dedupFirst
    exact nodup_dedupAux _ _
  · unfold allFilesOf dedupFirst
    rw [dedupAux_append]
    refine ⟨_, rfl, fun x hx => ?_⟩
    intro hmem
    exact ((mem_dedupAux x _ _).mp hx).2 (List.mem_append.mpr (Or.inl hmem))

/-- Claim C4 fails on the code: in the workspace `wsNested` the token
    `app.ts` resolves through the assembler (first `**/app.ts` glob hit,
    `/ws/src/app.ts`) while the PathResolver algorithm of section 4.4 fails
    with `File not found` (no root join exists and the fallback requires the
    relative path to equal the token). -/
theorem C4_counterexample :
    resolveMention envC4 ("app.ts".toList) = some ("/ws/src/app.ts".toList) ∧
    pathResolverResolve wsNested ("app.ts".toList)
      = .error ("File not found: app.ts".toList) ∧
    envC4.ws = wsNested := by decide

/-- Claim C4 (amended): the assembler resolves a mention by one glob search
    `**/token` (node_modules excluded, capped at 5) and takes the first hit
    in workspace enumeration order — equivalently, the first non-excluded
    file whose relative path equals the token or ends in slash-token; it
    does not run the PathResolver algorithm. -/
theorem C4_amended (env : ChatEnv) (token : Str) :
    resolveMention env token = specMentionResolution env.ws token := by
  simp only [resolveMention, findFilesInWorkspace, findFiles, specMentionResolution,
    filterMap_guard_eq, Bool.not_true, Bool.false_or, List.head?_take]
  simp

/-- Claim C5 fails on the code: for the token `SRC/app.ts` over `wsNested`,
    the fallback search returns `/ws/src/app.ts`, whose relative path equals
    the token up to letter case only, yet `resolveFilePath` fails because
    the comparison is the case-sensitive `===`. -/
theorem C5_counterexample :
    lowerS ("SRC/app.ts".toList) = lowerS ("src/app.ts".toList) ∧
    findFiles wsNested (basenameS ("SRC/app.ts".toList)) false none
      = ["/ws/src/app.ts".toList] ∧
    asRelativePath wsNested ("/ws/src/app.ts".toList) = "src/app.ts".toList ∧
    resolveFilePath wsNested ("SRC/app.ts".toList)
      = .error ("File not found: SRC/app.ts".toList) := by decide

/-- Claim C5 (amended): when no root join exists, `resolveFilePath` performs
    the basename fallback search and returns the first result whose
    workspace-relative path equals the original token exactly and
    case-sensitively. -/
theorem C5_amended (ws : List WorkspaceFolder) (token f : Str)
    (hne : ws ≠ [])
    (hdirect : ws.find? (fun fo => existsFS ws (joinS fo.root token)) = none)
    (hfb : (findFiles ws (basenameS token) false none).find?
        (fun p => asRelativePath ws p == token) = some f) :
    resolveFilePath ws token = .ok f := by
  cases ws with
  | nil => exact absurd rfl hne
  | cons a l => simp only [resolveFilePath, hdirect, hfb]

/-- Witness for the amended C5: a two-root workspace where only the fallback
    search resolves the token. -/
theorem C5_amended_witness :
    resolveFilePath wsTwoRoots ("b/src/app.ts".toList) = .ok ("/b/src/app.ts".toList) :=
  C5_amended wsTwoRoots ("b/src/app.ts".toList) ("/b/src/app.ts".toList)
    (by decide) (by decide) (by decide)

/-- Claim C6 fails on the code: the file `a.foo` has an extension absent
    from both language tables, yet the serialized context block carries the
    language tag `FOO` (the upper-cased extension produced by
    `_getFileLanguage`), not `text`. -/
theorem C6_counterexample :
    getFileLanguage ("a.foo".toList) = "FOO".toList ∧
    ¬ getFileLanguage ("a.foo".toList) = "text".toList ∧
    (handleChatMessage envC6 ("hi".toList) ["a.foo".toList]).map
      (fun blk => (decide (("// Language: FOO".toList) <:+: blk.prompt),
                   decide (("// Language: text".toList) <:+: blk.prompt)))
      = .ok (true, false) := by decide

/-- Claim C6 (amended): for every extension absent from the chat panel
    table — including extensions such as `.py` that the FileManager table
    does know — the serialized language tag is the extension without its
    dot, upper cased; the `"text"` default belongs to
    `FileManager.getLanguageFromFile` (for extensions absent from its own
    table), which the serialization path does not use. -/
theorem C6_amended (p : Str)
    (hchat : chatLangMap.lookup (lowerS (extnameS p)) = none) :
    getFileLanguage p = upperS ((lowerS (extnameS p)).drop 1) ∧
    (fmLangMap.lookup (lowerS (extnameS p)) = none →
      getLanguageFromFile p = "text".toList) := by
  constructor
  · simp only [getFileLanguage, hchat]
  · intro hfm
    simp only [getLanguageFromFile, hfm]

/-- Witness for the amended C6: the serialized tag for `.py` (absent from
    the chat table but present in the FileManager table) is `PY`, and the
    unused FileManager lookup defaults to `text` at `.foo`. -/
theorem C6_amended_witness :
    getFileLanguage ("a.py".toList)
      = upperS ((lowerS (extnameS ("a.py".toList))).drop 1) ∧
    getLanguageFromFile ("a.foo".toList) = "text".toList :=
  ⟨(C6_amended ("a.py".toList) (by decide)).1,
   (C6_amended ("a.foo".toList) (by decide)).2 (by decide)⟩

/-- Claim C7 fails on the code: on the input `@.` the regex captures `.`,
    stripping trailing punctuation empties it, and the extractor returns a
    list containing the empty token. -/
theorem C7_counterexample :
    extractFileReferences ("@.".toList) = [[]] ∧
    ([] : Str) ∈ extractFileReferences ("@.".toList) := by decide

/-- A text without `@` produces no regex captures. -/
theorem scanAux_none_no_at :
    ∀ (text : Str), '@' ∉ text → scanAux none text = [] := by
  intro text
  induction text with
  | nil => intro _; rfl
  | cons c rest ih =>
    intro h
    have hc : (c == '@') = false := by
      rw [beq_eq_false_iff_ne]
      intro hcc
      exact h (hcc ▸ List.mem_cons_self c rest)
    simp only [scanAux, hc, Bool.false_eq_true, if_false]
    exact ih (fun hm => h (List.mem_cons_of_mem c hm))

/-- The seen-accumulator deduplication lists its elements in strictly
    increasing order of first-occurrence position in the input. -/
theorem pairwise_indexOf_dedupAux [DecidableEq α] [BEq α] [LawfulBEq α] :
    ∀ (l seen : List α),
      (dedupAux seen l).Pairwise (fun a b => l.indexOf a < l.indexOf b) := by
  intro l
  induction l with
  | nil => intro seen; simp [dedupAux]
  | cons x xs ih =>
    intro seen
    by_cases hx : x ∈ seen
    · simp only [dedupAux, if_pos hx]
      refine (ih seen).imp_of_mem ?_
      intro a b ha hb hlt
      have hax : (x == a) = false := beq_eq_false_iff_ne.mpr (by
        intro h
        subst h
        exact ((mem_dedupAux x xs seen).mp ha).2 hx)
      have hbx : (x == b) = false := beq_eq_false_iff_ne.mpr (by
        intro h
        subst h
        exact ((mem_dedupAux x xs seen).mp hb).2 hx)
      simp only [List.indexOf_cons, hax, hbx, cond_false]
      omega
    · simp only [dedupAux, if_neg hx]
      refine List.pairwise_cons.mpr ⟨?_, ?_⟩
      · intro b hb
        have hbx : (x == b) = false := beq_eq_false_iff_ne.mpr (by
          intro h
          subst h
          exact ((mem_dedupAux x xs (x :: seen)).mp hb).2 (List.mem_cons_self x seen))
        simp only [List.indexOf_cons, hbx, cond_false, beq_self_eq_true, cond_true]
        omega
      · refine (ih (x :: seen)).imp_of_mem ?_
        intro a b ha hb hlt
        have hax : (x == a) = false := beq_eq_false_iff_ne.mpr (by
          intro h
          subst h
          exact ((mem_dedupAux x xs (x :: seen)).mp ha).2 (List.mem_cons_self x seen))
        have hbx : (x == b) = false := beq_eq_false_iff_ne.mpr (by
          intro h
          subst h
          exact ((mem_dedupAux x xs (x :: seen)).mp hb).2 (List.mem_cons_self x seen))
        simp only [List.indexOf_cons, hax, hbx, cond_false]
        omega

/-- Claim C7 (amended): the extractor returns a duplicate-free sequence
    ordered by first occurrence — its tokens are pairwise in strictly
    increasing order of first-occurrence position among the raw stripped
    captures, of which the result is a subsequence with the same
    membership — and returns the empty list when the text contains no `@`;
    however a returned token can be the empty string once trailing
    punctuation is stripped (the caller filters empties). -/
theorem C7_amended (text : Str) :
    (extractFileReferences text).Nodup ∧
    (extractFileReferences text).Pairwise (fun a b =>
      ((scanMentions text).map stripTrailingPunct).indexOf a
        < ((scanMentions text).map stripTrailingPunct).indexOf b) ∧
    (extractFileReferences text).Sublist ((scanMentions text).map stripTrailingPunct) ∧
    (∀ t, t ∈ extractFileReferences text ↔
      t ∈ (scanMentions text).map stripTrailingPunct) ∧
    ('@' ∉ text → extractFileReferences text = []) := by
  refine ⟨?_, ?_, ?_, ?_, ?_⟩
  · unfold extractFileReferences dedupFirst
    exact nodup_dedupAux _ _
  · unfold extractFileReferences dedupFirst
    exact pairwise_indexOf_dedupAux _ _
  · unfold extractFileReferences dedupFirst
    exact dedupAux_sublist _ _
  · intro t
    unfold extractFileReferences dedupFirst
    rw [mem_dedupAux]
    simp
  · intro h
    unfold extractFileReferences scanMentions
    rw [scanAux_none_no_at text h]
    rfl

/-- Witness for the amended C7 at a mention-free text. -/
theorem C7_amended_witness :
    (extractFileReferences ("hello".toList)).Nodup ∧
    extractFileReferences ("hello".toList) = [] :=
  ⟨(C7_amended ("hello".toList)).1, (C7_amended ("hello".toList)).2.2.2.2 (by decide)⟩

/-- Every image-metadata summary contains the literal text `Image:`. -/
theorem imageTag_infix (stat : Str → Option StatInfo) (p : Str) :
    ("Image:".toList) <:+: getImageMetadata stat p := by
  simp only [getImageMetadata]
  cases stat p <;>
    · repeat apply infix_append_keep
      decide

/-- Claim C8: reading a workspace path with extension `.png` through
    `FileManager.readFileContent` yields the metadata summary — a string
    containing `Image:` and the upper-cased extension `PNG` and independent
    of the file bytes — and when the stat call fails the reduced summary
    still contains the file name and the path. -/
theorem C8_png_read (env : FMEnv) (p : Str)
    (hext : extnameS p = ".png".toList)
    (hws : env.ws ≠ [])
    (habs : isAbsoluteS p = true) :
    fmReadFileContent env p = .ok (getImageMetadata env.statFile p) ∧
    ("Image:".toList) <:+: getImageMetadata env.statFile p ∧
    ("PNG".toList) <:+: getImageMetadata env.statFile p ∧
    (env.statFile p = none →
      basenameS p <:+: getImageMetadata env.statFile p ∧
      p <:+: getImageMetadata env.statFile p) := by
  have himg : fmIsImageFile p = true := by
    unfold fmIsImageFile
    rw [hext]
    decide
  refine ⟨?_, imageTag_infix env.statFile p, ?_, ?_⟩
  · cases hw : env.ws with
    | nil => exact absurd hw hws
    | cons f t => simp [fmReadFileContent, hw, habs, himg]
  · simp only [getImageMetadata, hext]
    cases env.statFile p with
    | some st =>
      apply infix_append_keep
      apply infix_append_keep
      apply infix_append_keep
      apply infix_append_keep
      apply infix_append_keep
      apply infix_append_keep
      apply infix_append_keep
      apply infix_append_swallow
      decide
    | none =>
      apply infix_append_keep
      apply infix_append_keep
      apply infix_append_keep
      apply infix_append_swallow
      decide
  · intro hnone
    simp only [getImageMetadata, hnone]
    constructor
    · apply infix_append_keep
      apply infix_append_keep
      apply infix_append_keep
      apply infix_append_keep
      apply infix_append_keep
      apply infix_append_swallow
      exact List.infix_refl _
    · apply infix_append_keep
      apply infix_append_swallow
      exact List.infix_refl _

/-- Witness for C8 at `fmEnvC8` (whose stat call fails), exercising both the
    main equality and the reduced-summary branch. -/
theorem C8_png_read_witness :
    fmReadFileContent fmEnvC8 ("/ws/img.png".toList)
      = .ok (getImageMetadata fmEnvC8.statFile ("/ws/img.png".toList)) ∧
    basenameS ("/ws/img.png".toList)
      <:+: getImageMetadata fmEnvC8.statFile ("/ws/img.png".toList) :=
  ⟨(C8_png_read fmEnvC8 ("/ws/img.png".toList) (by decide) (by decide) (by decide)).1,
   ((C8_png_read fmEnvC8 ("/ws/img.png".toList) (by decide) (by decide)
      (by decide)).2.2.2 (by rfl)).1⟩

/-- Claim C9: `formatFileSize` renders `0` as `0 Bytes`, carries a unit from
    the four-entry table exactly for byte counts below `1024 ^ 4`, and for
    every count of at least `1024 ^ 4` the unit index runs past the table so
    the result ends in the text `undefined`. -/
theorem C9_formatFileSize :
    formatFileSize 0 = "0 Bytes".toList ∧
    (∀ b : Nat, 1 ≤ b → b < 1024 ^ 4 →
      ∃ u ∈ sizesUnits, (' ' :: u) <:+ formatFileSize b) ∧
    (∀ b : Nat, 1024 ^ 4 ≤ b → ("undefined".toList) <:+ formatFileSize b) := by
  refine ⟨rfl, ?_, ?_⟩
  · intro b h1 h2
    have hb0 : b ≠ 0 := by omega
    have hbeq : (b == 0) = false := by simp [hb0]
    have hlog : Nat.log 1024 b < 4 := (Nat.lt_pow_iff_log_lt (by norm_num) hb0).mp h2
    simp only [formatFileSize, hbeq, Bool.false_eq_true, if_false]
    generalize hgen : Nat.log 1024 b = i at hlog
    have hcase : i = 0 ∨ i = 1 ∨ i = 2 ∨ i = 3 := by omega
    rcases hcase with rfl | rfl | rfl | rfl
    · exact ⟨"Bytes".toList, by decide,
        by simpa [sizesUnits] using List.suffix_append (fmtNum b 0) (' ' :: "Bytes".toList)⟩
    · exact ⟨"KB".toList, by decide,
        by simpa [sizesUnits] using List.suffix_append (fmtNum b 1) (' ' :: "KB".toList)⟩
    · exact ⟨"MB".toList, by decide,
        by simpa [sizesUnits] using List.suffix_append (fmtNum b 2) (' ' :: "MB".toList)⟩
    · exact ⟨"GB".toList, by decide,
        by simpa [sizesUnits] using List.suffix_append (fmtNum b 3) (' ' :: "GB".toList)⟩
  · intro b hge
    have hb0 : b ≠ 0 := by
      have hpos : 0 < (1024 : Nat) ^ 4 := by norm_num
      omega
    have hbeq : (b == 0) = false := by simp [hb0]
    have hlog : 4 ≤ Nat.log 1024 b := (Nat.pow_le_iff_le_log (by norm_num) hb0).mp hge
    simp only [formatFileSize, hbeq, Bool.false_eq_true, if_false]
    have hgd : sizesUnits.getD (Nat.log 1024 b) ("undefined".toList) = "undefined".toList :=
      List.getD_eq_default _ _ (by simp [sizesUnits]; omega)
    rw [hgd]
    have h1 : ("undefined".toList) <:+ (' ' :: "undefined".toList) := ⟨[' '], rfl⟩
    exact h1.trans (List.suffix_append _ _)

/-- Witness for C9 at the byte counts 500 and `1024 ^ 4`. -/
theorem C9_formatFileSize_witness :
    (∃ u ∈ sizesUnits, (' ' :: u) <:+ formatFileSize 500) ∧
    ("undefined".toList) <:+ formatFileSize (1024 ^ 4) :=
  ⟨C9_formatFileSize.2.1 500 (by norm_num) (by norm_num),
   C9_formatFileSize.2.2 (1024 ^ 4) (le_refl _)⟩

/-- Claim C10: the two content readers disagree on `.webp` (and `.ico`)
    paths — the chat panel reader treats them as text and returns the raw
    document content, while the FileManager reader treats them as images and
    returns the metadata summary. -/
theorem C10_webp_ico (env : ChatEnv) (fenv : FMEnv) (p c : Str)
    (hext : extnameS p = ".webp".toList ∨ extnameS p = ".ico".toList)
    (hcws : env.ws ≠ []) (hfws : fenv.ws ≠ [])
    (habs : isAbsoluteS p = true)
    (hread : env.readTextFile p = .ok c) :
    chatIsImageFile p = false ∧
    fmIsImageFile p = true ∧
    chatReadFileContent env p = .ok c ∧
    fmReadFileContent fenv p = .ok (getImageMetadata fenv.statFile p) ∧
    ("Image:".toList) <:+: getImageMetadata fenv.statFile p := by
  have hnimg : chatIsImageFile p = false := by
    unfold chatIsImageFile
    rcases hext with h | h <;> rw [h] <;> decide
  have himg : fmIsImageFile p = true := by
    unfold fmIsImageFile
    rcases hext with h | h <;> rw [h] <;> decide
  refine ⟨hnimg, himg, ?_, ?_, imageTag_infix fenv.statFile p⟩
  · cases hw : env.ws with
    | nil => exact absurd hw hcws
    | cons f t => simp [chatReadFileContent, hw, habs, hnimg, hread]
  · cases hw : fenv.ws with
    | nil => exact absurd hw hfws
    | cons f t => simp [fmReadFileContent, hw, habs, himg]

/-- Witness for C10 at the concrete `.webp` file of `envC10` / `fmEnvC10`. -/
theorem C10_webp_ico_witness :
    chatIsImageFile ("/ws/pic.webp".toList) = false ∧
    fmIsImageFile ("/ws/pic.webp".toList) = true ∧
    chatReadFileContent envC10 ("/ws/pic.webp".toList) = .ok ("RAWBYTES".toList) ∧
    fmReadFileContent fmEnvC10 ("/ws/pic.webp".toList)
      = .ok (getImageMetadata fmEnvC10.statFile ("/ws/pic.webp".toList)) ∧
    ("Image:".toList) <:+: getImageMetadata fmEnvC10.statFile ("/ws/pic.webp".toList) :=
  C10_webp_ico envC10 fmEnvC10 ("/ws/pic.webp".toList) ("RAWBYTES".toList)
    (Or.inl (by decide)) (by decide) (by decide) (by decide) (by decide)
